import Mathlib

/-!
Shallow embedding of `src/main.py` (a Telegram audio/subtitle bot):
subtitle/timestamp parsers, the translation fallback, the key resolver,
command-argument parsing, natural sorting, and the pager/formatter.

Modelling conventions:
* Python `float` is modelled as `ℚ` (all arithmetic in the source on these
  values is addition/division of decimal literals, exact in `ℚ`).
* Python strings are Lean `String`s; `str.strip()`, `str.lower()`,
  `str.splitlines()` and the regular expressions of the source are embedded
  as executable character-list functions below.  `\w`, `lower`/`upper` are
  modelled over ASCII plus the Latin-1 letter block (the alphabet the
  repository's Spanish data uses); Python additionally handles other Unicode
  scripts, which no claim touches.
* The global dict `MEDIA_DB` is passed explicitly: as the list of its keys in
  insertion order where only keys matter (`_resolve_key`), and as a
  cue-count function `String → ℕ` where `build_page` renders counts.
* The network translator (`GoogleTranslator.translate`) is passed to
  `translate_line` as a fallible function `String → Except String String`.
-/

attribute [local semireducible] Rat.mul Rat.add Rat.sub Rat.inv

/-! ### Python string primitives -/

/-- Python's notion of whitespace for `str.strip()` / `\s` (Unicode set). -/
def pyIsSpace (c : Char) : Bool :=
  decide (c = ' ' ∨ c = '\t' ∨ c = '\n' ∨ c = '\r' ∨ c.toNat = 0x0b ∨ c.toNat = 0x0c ∨
    (0x1c ≤ c.toNat ∧ c.toNat ≤ 0x1f) ∨ c.toNat = 0x85 ∨ c.toNat = 0xa0 ∨
    c.toNat = 0x1680 ∨ (0x2000 ≤ c.toNat ∧ c.toNat ≤ 0x200a) ∨
    c.toNat = 0x2028 ∨ c.toNat = 0x2029 ∨ c.toNat = 0x202f ∨ c.toNat = 0x205f ∨
    c.toNat = 0x3000)

/-- Line boundaries recognised by Python's `str.splitlines()`
(after the source has already replaced `\r\n`/`\r` by `\n`). -/
def isLineBreak (c : Char) : Bool :=
  decide (c = '\n' ∨ c = '\r' ∨ c.toNat = 0x0b ∨ c.toNat = 0x0c ∨
    c.toNat = 0x1c ∨ c.toNat = 0x1d ∨ c.toNat = 0x1e ∨ c.toNat = 0x85 ∨
    c.toNat = 0x2028 ∨ c.toNat = 0x2029)

def isAsciiDigit (c : Char) : Bool := decide ('0' ≤ c ∧ c ≤ '9')

/-- Python `str.lower()` on ASCII and the Latin-1 letter block. -/
def pyLowerChar (c : Char) : Char :=
  if 'A' ≤ c ∧ c ≤ 'Z' then Char.ofNat (c.toNat + 32)
  else if 0xC0 ≤ c.toNat ∧ c.toNat ≤ 0xDE ∧ c.toNat ≠ 0xD7 then Char.ofNat (c.toNat + 32)
  else c

def pyLower (s : String) : String := String.mk (s.data.map pyLowerChar)

/-- Python `str.upper()` on ASCII and the Latin-1 letter block. -/
def pyUpperChar (c : Char) : Char :=
  if 'a' ≤ c ∧ c ≤ 'z' then Char.ofNat (c.toNat - 32)
  else if 0xE0 ≤ c.toNat ∧ c.toNat ≤ 0xFE ∧ c.toNat ≠ 0xF7 then Char.ofNat (c.toNat - 32)
  else c

def pyUpper (s : String) : String := String.mk (s.data.map pyUpperChar)

/-- Python `str.strip(chars)` generalised over a character predicate. -/
def pyStripChars (p : Char → Bool) (s : String) : String :=
  String.mk (((s.data.dropWhile p).reverse.dropWhile p).reverse)

/-- Python `str.strip()`. -/
def pyStrip (s : String) : String := pyStripChars pyIsSpace s

/-- Python `str.rstrip()`. -/
def pyRstrip (s : String) : String :=
  String.mk (s.data.reverse.dropWhile pyIsSpace).reverse

/-- The normalisation `content.replace("\r\n", "\n").replace("\r", "\n")`. -/
def normNl : List Char → List Char
  | [] => []
  | '\r' :: '\n' :: rest => '\n' :: normNl rest
  | '\r' :: rest => '\n' :: normNl rest
  | c :: rest => c :: normNl rest

def splitLinesAux : List Char → List Char → List String
  | [], acc => if acc.isEmpty then [] else [String.mk acc.reverse]
  | c :: cs, acc =>
    if isLineBreak c then String.mk acc.reverse :: splitLinesAux cs []
    else splitLinesAux cs (c :: acc)

/-- Python `str.splitlines()`. -/
def pySplitlines (s : String) : List String := splitLinesAux s.data []

def digitsToNat (ds : List Char) : ℕ :=
  ds.foldl (fun a c => a * 10 + (c.toNat - 48)) 0

/-- Python `str.split(sep)` for a one-character separator (as used with `":"` and
`"/"` in the source). -/
def splitOnCharAux (sep : Char) : List Char → List Char → List String
  | [], acc => [String.mk acc.reverse]
  | c :: cs, acc =>
    if c = sep then String.mk acc.reverse :: splitOnCharAux sep cs []
    else splitOnCharAux sep cs (c :: acc)

def pySplitChar (sep : Char) (s : String) : List String := splitOnCharAux sep s.data []

def startsWithL : List Char → List Char → Bool
  | [], _ => true
  | _ :: _, [] => false
  | p :: ps, c :: cs => p = c && startsWithL ps cs

/-- Python `str.startswith(pre)`. -/
def pyStartsWith (s pre : String) : Bool := startsWithL pre.data s.data

/-- Python `str.endswith(suf)`. -/
def pyEndsWith (s suf : String) : Bool := startsWithL suf.data.reverse s.data.reverse

theorem drop1_dropWhile_len_le (p : α → Bool) (l : List α) :
    ((l.dropWhile p).drop 1).length ≤ l.length := by
  have h2 := (List.dropWhile_sublist (l := l) p).length_le
  have h1 : ((l.dropWhile p).drop 1).length ≤ (l.dropWhile p).length := by
    rw [List.length_drop]; omega
  omega

/-- Python `int(s)`: optional surrounding whitespace, optional sign, digits. -/
def pyInt (s : String) : Option ℤ :=
  match (pyStrip s).data with
  | '-' :: ds => if ds ≠ [] ∧ ds.all isAsciiDigit then some (-(digitsToNat ds : ℤ)) else none
  | '+' :: ds => if ds ≠ [] ∧ ds.all isAsciiDigit then some ((digitsToNat ds : ℤ)) else none
  | ds => if ds ≠ [] ∧ ds.all isAsciiDigit then some ((digitsToNat ds : ℤ)) else none

/-- Python `float(s)` on plain decimal forms (`12`, `12.`, `.5`, `-3.25`);
exponent/`inf`/`nan` forms never occur in this repository's inputs. -/
def pyFloat (s : String) : Option ℚ :=
  let step : List Char → ℚ → Option ℚ := fun cs sign =>
    let ip := cs.takeWhile isAsciiDigit
    match cs.dropWhile isAsciiDigit with
    | [] => if ip ≠ [] then some (sign * (digitsToNat ip : ℚ)) else none
    | '.' :: fp =>
      if fp.all isAsciiDigit ∧ (ip ≠ [] ∨ fp ≠ []) then
        some (sign * ((digitsToNat ip : ℚ) + (digitsToNat fp : ℚ) / (10 : ℚ) ^ fp.length))
      else none
    | _ => none
  match (pyStrip s).data with
  | '-' :: t => step t (-1)
  | '+' :: t => step t 1
  | t => step t 1

/-! ### Timestamp parser (`parse_ts`, main.py:54-61) -/

/-- The step `s.strip().replace(",", ".")` — the comma-decimal normalisation. -/
def commaToDot (s : String) : String :=
  String.mk (s.data.map (fun c => if c = ',' then '.' else c))

/-- The function `parse_ts`: `h:m:s → h*3600+m*60+s`, `m:s → m*60+s`, otherwise
`float(parts[0])`; a non-numeric segment is a parse error (`none`). -/
def parse_ts (s : String) : Option ℚ :=
  let t := commaToDot (pyStrip s)
  match pySplitChar ':' t with
  | [a, b, c] => do
    let h ← pyInt a
    let m ← pyInt b
    let sec ← pyFloat c
    pure ((h : ℚ) * 3600 + (m : ℚ) * 60 + sec)
  | [a, b] => do
    let m ← pyInt a
    let sec ← pyFloat b
    pure ((m : ℚ) * 60 + sec)
  | a :: _ => pyFloat a
  | [] => none

/-! ### `normalize_text` (main.py:51-52) -/

/-- The substitution `re.sub(r"<[^>]+>", "", ·)`: drop every `<...>` span (at least one
non-`>` character between the brackets, up to the first `>`).  The fuel
argument only bounds the recursion (structurally); `stripTags` below always
supplies enough. -/
def stripTagsF : ℕ → List Char → List Char
  | 0, cs => cs
  | _ + 1, [] => []
  | fuel + 1, c :: cs =>
    if c = '<' then
      let inner := cs.takeWhile (fun x => x != '>')
      match cs.dropWhile (fun x => x != '>') with
      | '>' :: rest => if inner ≠ [] then stripTagsF fuel rest else c :: stripTagsF fuel cs
      | _ => c :: stripTagsF fuel cs
    else c :: stripTagsF fuel cs

def stripTags (cs : List Char) : List Char := stripTagsF (cs.length + 1) cs

/-- The function `normalize_text`: drop zero-width spaces, strip, then drop tags. -/
def normalize_text (t : String) : String :=
  String.mk (stripTags (pyStrip (String.mk (t.data.filter (fun c => c != '​')))).data)

/-! ### Timed-format cue parser (`parse_srt_vtt`, main.py:63-90) -/

structure Cue where
  start : ℚ
  «end» : ℚ
  text : String
deriving DecidableEq, Repr

/-- The `HH:MM:SS[.,]mmm` branch of the timestamp alternation. -/
def matchTimeLong : List Char → Option (List Char × List Char)
  | a :: b :: ':' :: c :: d :: ':' :: e :: f :: sep :: g :: h :: i :: rest =>
    if isAsciiDigit a ∧ isAsciiDigit b ∧ isAsciiDigit c ∧ isAsciiDigit d ∧
       isAsciiDigit e ∧ isAsciiDigit f ∧ (sep = '.' ∨ sep = ',') ∧
       isAsciiDigit g ∧ isAsciiDigit h ∧ isAsciiDigit i then
      some ([a, b, ':', c, d, ':', e, f, sep, g, h, i], rest)
    else none
  | _ => none

/-- The `MM:SS[.,]mmm` branch of the timestamp alternation. -/
def matchTimeShort : List Char → Option (List Char × List Char)
  | a :: b :: ':' :: c :: d :: sep :: e :: f :: g :: rest =>
    if isAsciiDigit a ∧ isAsciiDigit b ∧ isAsciiDigit c ∧ isAsciiDigit d ∧
       (sep = '.' ∨ sep = ',') ∧ isAsciiDigit e ∧ isAsciiDigit f ∧ isAsciiDigit g then
      some ([a, b, ':', c, d, sep, e, f, g], rest)
    else none
  | _ => none

def matchTime (cs : List Char) : Option (List Char × List Char) :=
  matchTimeLong cs <|> matchTimeShort cs

def matchArrow : List Char → Option (List Char)
  | '-' :: '-' :: '>' :: rest => some rest
  | _ => none

/-- The full `<time> --> <time>` pattern anchored at the current position. -/
def matchRangeAt (cs : List Char) : Option (String × String) := do
  let (g1, r1) ← matchTime cs
  let r2 ← matchArrow (r1.dropWhile pyIsSpace)
  let (g2, _) ← matchTime (r2.dropWhile pyIsSpace)
  pure (String.mk g1, String.mk g2)

/-- The search `time_re.search`: leftmost occurrence of the range pattern. -/
def searchRange : List Char → Option (String × String)
  | [] => none
  | c :: rest => matchRangeAt (c :: rest) <|> searchRange rest

def searchLine (l : String) : Option (String × String) := searchRange (pyStrip l).data

/-- Evaluation of `parse_ts` on a regex-matched timestamp; such tokens always parse, so
the `0` default is never reached. -/
def parseTsF (s : String) : ℚ := (parse_ts s).getD 0

/-- The cue emitted (or not) for a matched timestamp range followed by the
lines `tail`, together with the lines remaining after the text block and
its terminating blank line. -/
def cueBlock (g1 g2 : String) (tail : List String) : List Cue × List String :=
  let block := tail.takeWhile (fun x => pyStrip x != "")
  let rem := (tail.dropWhile (fun x => pyStrip x != "")).drop 1
  let text := normalize_text (String.intercalate " " block)
  let st := parseTsF g1
  let en := parseTsF g2
  ((if st < en ∧ text ≠ "" then [⟨st, en, text⟩] else []), rem)

/-- The scanning loop of `parse_srt_vtt`: find a timestamp range on the
current line or (skipping one index line) the next, collect the following
non-blank block, emit the cue when `end > start` and the cleaned text is
non-empty, continue past the terminating blank line.  Structural recursion
on a fuel argument; `lines.length` fuel always suffices (each step consumes
at least one line). -/
def scanCuesF : ℕ → List String → List Cue
  | 0, _ => []
  | _ + 1, [] => []
  | fuel + 1, l :: rest =>
      match searchLine l with
      | some (g1, g2) =>
        let cb := cueBlock g1 g2 rest
        cb.1 ++ scanCuesF fuel cb.2
      | none =>
        match rest with
        | [] => []
        | l2 :: rest2 =>
          match searchLine l2 with
          | some (g1, g2) =>
            let cb := cueBlock g1 g2 rest2
            cb.1 ++ scanCuesF fuel cb.2
          | none => scanCuesF fuel (l2 :: rest2)

def scanCues (lines : List String) : List Cue := scanCuesF lines.length lines

def cueLe (a b : Cue) : Prop := a.start ≤ b.start

instance : DecidableRel cueLe := fun a b => inferInstanceAs (Decidable (a.start ≤ b.start))

/-- The body of `parse_srt_vtt` after line splitting: drop a leading `WEBVTT` marker
line, scan, then `sorted(cues, key=lambda c: c.start)` (stable). -/
def parseSrtLines (lines : List String) : List Cue :=
  let lines2 := match lines with
    | [] => lines
    | l :: rest => if pyStartsWith (pyUpper (pyStrip l)) "WEBVTT" then rest else lines
  List.insertionSort cueLe (scanCues lines2)

def parse_srt_vtt (content : String) : List Cue :=
  parseSrtLines (pySplitlines (String.mk (normNl content.data)))

/-! ### Plain-text cue parser (`parse_txt`, main.py:92-102) -/

def DEFAULT_WPS : ℚ := 5 / 2
def MIN_LAST_DUR : ℚ := 6 / 5

/-- Python `\w` over ASCII and Latin-1 (letters, digits, underscore). -/
def isWordChar (c : Char) : Bool :=
  c.isAlphanum || c = '_' ||
    decide ((0xC0 ≤ c.toNat ∧ c.toNat ≤ 0xFF ∧ c.toNat ≠ 0xD7 ∧ c.toNat ≠ 0xF7) ∨
      c.toNat = 0xAA ∨ c.toNat = 0xB5 ∨ c.toNat = 0xBA)

def wcAux : List Char → Bool → ℕ
  | [], _ => 0
  | c :: cs, inWord =>
    if isWordChar c then (if inWord then 0 else 1) + wcAux cs true
    else wcAux cs false

/-- The count `len(re.findall(r"\w+", s))`: number of maximal word-character runs. -/
def wordCount (s : String) : ℕ := wcAux s.data false

def txtGo : List String → ℚ → List Cue
  | [], _ => []
  | r :: rs, t0 =>
    let txt := normalize_text r
    let dur := max MIN_LAST_DUR ((wordCount txt : ℚ) / DEFAULT_WPS)
    ⟨t0, t0 + dur, txt⟩ :: txtGo rs (t0 + dur)

/-- The function `parse_txt`: non-blank lines, cleaned, with synthesized back-to-back
timing from `t0 = 0`. -/
def parse_txt (content : String) : List Cue :=
  txtGo ((pySplitlines (String.mk (normNl content.data))).filter
    (fun r => pyStrip r != "")) 0

/-! ### Translation fallback (`translate_line`, main.py:31-38) -/

/-- The function `translate_line` with the external translator passed in; an `Except`
error models the `except Exception` path. -/
def translate_line (svc : String → Except String String) (text : String) : String :=
  if pyStrip text = "" then ""
  else
    match svc text with
    | .ok r => r
    | .error _ => text

/-! ### Key resolver (`_clean_material_name` / `_resolve_key`, main.py:143-162) -/

def isQuoteOrSpace (c : Char) : Bool := decide (c = ' ' ∨ c = '\'' ∨ c = '"' ∨ c = '“' ∨ c = '”' ∨ c = '‘' ∨ c = '’')

/-- The tail of `re.sub(r"\s*\(\s*\d+\s+l[ií]neas\s*\)\s*$", "", s, IGNORECASE)`:
match the decorative suffix from the right end of the (reversed) string;
on success return the remaining reversed prefix. -/
def lineasSuffixRev (rev : List Char) : Option (List Char) := do
  let r1 := rev.dropWhile pyIsSpace
  let r2 ← match r1 with | ')' :: t => some t | _ => none
  let r3 := r2.dropWhile pyIsSpace
  let r4 ← match r3 with
    | c1 :: c2 :: c3 :: c4 :: c5 :: c6 :: t =>
      if pyLowerChar c1 = 's' ∧ pyLowerChar c2 = 'a' ∧ pyLowerChar c3 = 'e' ∧
         pyLowerChar c4 = 'n' ∧ (pyLowerChar c5 = 'i' ∨ pyLowerChar c5 = 'í') ∧
         pyLowerChar c6 = 'l' then some t else none
    | _ => none
  let ws := r4.takeWhile pyIsSpace
  let r5 ← if ws.isEmpty then none else some (r4.dropWhile pyIsSpace)
  let ds := r5.takeWhile isAsciiDigit
  let r6 ← if ds.isEmpty then none else some (r5.dropWhile isAsciiDigit)
  let r7 := r6.dropWhile pyIsSpace
  let r8 ← match r7 with | '(' :: t => some t | _ => none
  pure (r8.dropWhile pyIsSpace)

/-- The function `_clean_material_name`: strip, drop a trailing `"(<N> líneas)"`
decoration, strip surrounding quote characters. -/
def _clean_material_name (s : String) : String :=
  let s1 := pyStrip s
  let s2 := match lineasSuffixRev s1.data.reverse with
    | some remRev => String.mk remRev.reverse
    | none => s1
  pyStripChars isQuoteOrSpace s2

def pyBasename (s : String) : String :=
  String.mk ((s.data.reverse.takeWhile (fun c => c != '/')).reverse)

/-- The suffix/basename candidate collection of `_resolve_key`. -/
def candidatesFor (keys : List String) (lname : String) : List String :=
  keys.filter (fun k => pyEndsWith (pyLower k) ("/" ++ lname) || pyLower (pyBasename k) == lname)

def lenLe (a b : String) : Prop := a.length ≤ b.length

instance : DecidableRel lenLe := fun a b => inferInstanceAs (Decidable (a.length ≤ b.length))

instance : IsTotal String lenLe := ⟨fun a b => Nat.le_total a.length b.length⟩

instance : IsTrans String lenLe := ⟨fun _ _ _ h h2 => Nat.le_trans h h2⟩

/-- The function `_resolve_key` over the directory's key list (in insertion order):
exact match, case-insensitive match, then suffix/basename candidates with
`candidates.sort(key=len); return candidates[-1]`. -/
def _resolve_key (keys : List String) (name : String) : Option String :=
  let n := _clean_material_name name
  if n ∈ keys then some n
  else
    let lname := pyLower n
    match keys.find? (fun k => pyLower k == lname) with
    | some k => some k
    | none =>
      match candidatesFor keys lname with
      | [] => none
      | [c] => some c
      | cs => (List.insertionSort lenLe cs).getLast?

/-! ### Command argument parsing (`parse_cmd_with_page`, main.py:164-175) -/

def pyIsDigitStr (s : String) : Bool := !s.data.isEmpty && s.data.all isAsciiDigit

/-- Whitespace split with a maximum number of splits (`str.split(maxsplit=n)`):
after `n` splits the rest of the string (leading whitespace removed,
otherwise verbatim) is the final token. -/
def pySplitWsAux : ℕ → List Char → List String
  | 0, cs =>
    match cs.dropWhile pyIsSpace with
    | [] => []
    | c :: rest => [String.mk (c :: rest)]
  | m + 1, cs =>
    match cs.dropWhile pyIsSpace with
    | [] => []
    | c :: rest =>
      String.mk ((c :: rest).takeWhile (fun x => !pyIsSpace x)) ::
        pySplitWsAux m ((c :: rest).dropWhile (fun x => !pyIsSpace x))

/-- The function `parse_cmd_with_page`: `none` models the `IndexError` Python raises on a
whitespace-only input (unreachable from the command handlers). -/
def parse_cmd_with_page (text : String) : Option (String × ℤ) :=
  match pySplitWsAux 2 (pyStrip text).data with
  | [] => none
  | [_] => some ("", 1)
  | [_, p] => if pyIsDigitStr p then some ("", (digitsToNat p.data : ℤ)) else some (p, 1)
  | [_, q, mp] =>
    if pyIsDigitStr mp then some (q, (digitsToNat mp.data : ℤ))
    else some (q ++ " " ++ mp, 1)
  | _ => none

/-! ### Natural sort key (`natsort_key`, main.py:178-187) -/

/-- A token of a Python natural-sort key list: `int(part)` for digit runs,
the string part otherwise. -/
inductive NTok where
  | num (n : ℕ)
  | str (s : String)
deriving DecidableEq, Repr

/-- The split `re.split(r'(\d+)', s)` followed by the digit/int classification:
alternating (possibly empty) non-digit string parts and digit-run parts.
Structural recursion on fuel; `cs.length + 1` always suffices. -/
def digitSplitF : ℕ → List Char → List NTok
  | 0, _ => []
  | fuel + 1, cs =>
    let pre := cs.takeWhile (fun c => !isAsciiDigit c)
    match cs.dropWhile (fun c => !isAsciiDigit c) with
    | [] => [.str (String.mk pre)]
    | d :: rest =>
      .str (String.mk pre) :: .num (digitsToNat (d :: rest.takeWhile isAsciiDigit)) ::
        digitSplitF fuel (rest.dropWhile isAsciiDigit)

def digitSplit (cs : List Char) : List NTok := digitSplitF (cs.length + 1) cs

/-- The function `natsort_key`: split the path on `/`, each segment lowercased and split
into digit/non-digit tokens. -/
def natsort_key (path : String) : List NTok :=
  (pySplitChar '/' path).flatMap (fun seg => digitSplit (pyLower seg).data)

/-- Python string `<`: code-point lexicographic comparison. -/
def listLtChars : List Char → List Char → Bool
  | [], [] => false
  | [], _ :: _ => true
  | _ :: _, [] => false
  | a :: as, b :: bs => if a = b then listLtChars as bs else decide (a < b)

/-- Python `==` on key tokens (`int == str` is `False`, no error). -/
def tokEq : NTok → NTok → Bool
  | .num a, .num b => a == b
  | .str a, .str b => a == b
  | _, _ => false

/-- Python `<` on key tokens; `none` models the `TypeError` raised when an
`int` is compared with a `str`. -/
def tokLt : NTok → NTok → Option Bool
  | .num a, .num b => some (decide (a < b))
  | .str a, .str b => some (listLtChars a.data b.data)
  | _, _ => none

/-- Python list comparison `<` as used by `sorted`: first non-equal position
decides; `none` models a `TypeError` from an incomparable position. -/
def pyListLt : List NTok → List NTok → Option Bool
  | [], [] => some false
  | [], _ :: _ => some true
  | _ :: _, [] => some false
  | a :: as, b :: bs => if tokEq a b then pyListLt as bs else tokLt a b

/-- The comparator `sorted(keys, key=natsort_key)` uses, totalised with
`False` where Python would raise `TypeError` (the sort order is irrelevant
to the pager's size bound). -/
def natLtB (a b : String) : Bool := (pyListLt (natsort_key a) (natsort_key b)).getD false

def natLe (a b : String) : Prop := natLtB b a = false

instance : DecidableRel natLe := fun a b => inferInstanceAs (Decidable (natLtB b a = false))

/-! ### Pager / formatter (main.py:189-260) -/

def PAGE_SIZE : ℕ := 100
def MSG_BUDGET : ℕ := 3900

/-- The function `extract_last_number`: last digit run of the basename, as a Python int. -/
def extract_last_number (key : String) : Option ℤ :=
  ((digitSplit (pyBasename key).data).foldl
    (fun acc t => match t with | .num n => some n | .str _ => acc) none).map
    (fun n => (n : ℤ))

/-- The function `range_label_from_n`: the decade label `"<start>–<start+9>"`
(Python `//` is floor division, hence `Int.fdiv`). -/
def range_label_from_n (n : ℤ) : String :=
  let start := Int.fdiv (n - 1) 10 * 10 + 1
  toString start ++ "–" ++ toString (start + 9)

/-- The running `last_bucket` value: not yet set, a numeric decade bucket,
or the `"otros"` bucket. -/
inductive LB where
  | unset
  | num (b : ℤ)
  | otros
deriving DecidableEq, Repr

/-- One rendered key line `"• <key> (<n> líneas)\n"`. -/
def keyLine (db : String → ℕ) (k : String) : String :=
  "• " ++ k ++ " (" ++ toString (db k) ++ " líneas)\n"

/-- Decide whether a bucket-header line must be emitted before `k`, and the
`last_bucket` value after it. -/
def bucketHeaderOf (k : String) (lb : LB) : Option (String × LB) :=
  match extract_last_number k with
  | some n =>
    let b := Int.fdiv (n - 1) 10
    if LB.num b ≠ lb then some ("\n[" ++ range_label_from_n n ++ "]\n", LB.num b) else none
  | none =>
    if lb ≠ LB.otros then some ("\n[Otros]\n", LB.otros) else none

/-- The emission loop of `build_page`, returning `(out, used)`; an early
return models the `break` when a header or key line would exceed the
budget. -/
def pageLoop (db : String → ℕ) : List String → String → ℕ → LB → String × ℕ
  | [], out, used, _ => (out, used)
  | k :: rest, out, used, lb =>
    match bucketHeaderOf k lb with
    | some (bh, lb2) =>
      if used + bh.length > MSG_BUDGET then (out, used)
      else
        let out2 := out ++ bh
        let used2 := used + bh.length
        let line := keyLine db k
        if used2 + line.length > MSG_BUDGET then (out2, used2)
        else pageLoop db rest (out2 ++ line) (used2 + line.length) lb2
    | none =>
      let line := keyLine db k
      if used + line.length > MSG_BUDGET then (out, used)
      else pageLoop db rest (out ++ line) (used + line.length) lb

/-- The page header `f"{title} (pág. {page}/{total_pages}, total {total}):\n"`
with the page clamped into `[1, total_pages]`. -/
def pageHeader (total : ℕ) (page : ℤ) (title : String) : String :=
  let total_pages := max 1 ((total + PAGE_SIZE - 1) / PAGE_SIZE)
  let p := max 1 (min page (total_pages : ℤ))
  title ++ " (pág. " ++ toString p ++ "/" ++ toString total_pages ++ ", total " ++
    toString total ++ "):\n"

/-- The natural-sort + pagination steps of `build_page`: the window of the
(naturally sorted) keys shown on the clamped page. -/
def pageSlice (keys : List String) (page : ℤ) : List String :=
  let keys_sorted := List.insertionSort natLe keys
  let total := keys_sorted.length
  let total_pages := max 1 ((total + PAGE_SIZE - 1) / PAGE_SIZE)
  let p := max 1 (min page (total_pages : ℤ))
  let startIdx := ((p - 1) * (PAGE_SIZE : ℤ)).toNat
  let stopIdx := min (startIdx + PAGE_SIZE) total
  (keys_sorted.drop startIdx).take (stopIdx - startIdx)

/-- The function `build_page` over the cue-count view `db` of `MEDIA_DB`. -/
def build_page (db : String → ℕ) (keys : List String) (page : ℤ) (title : String) : String :=
  match keys with
  | [] => title ++ " (vacío)"
  | _ :: _ =>
    let header := pageHeader (List.insertionSort natLe keys).length page title
    let r := pageLoop db (pageSlice keys page) header header.length LB.unset
    let out := if r.2 = header.length then r.1 ++ "(sin elementos en esta página)" else r.1
    pyRstrip out

/-! ### Helper lemmas -/

/-- The character map of `replace(",", ".")`. -/
def cdChar (c : Char) : Char := if c = ',' then '.' else c

theorem pyIsSpace_cdChar (c : Char) : pyIsSpace (cdChar c) = pyIsSpace c := by
  unfold cdChar
  split
  · rename_i h; rw [h]; decide
  · rfl

theorem cdChar_idem (c : Char) : cdChar (cdChar c) = cdChar c := by
  unfold cdChar
  split
  · rfl
  · rename_i h; simp [h]

theorem commaToDot_eq_map (s : String) : commaToDot s = String.mk (s.data.map cdChar) := rfl

theorem strip_commaToDot (s : String) : pyStrip (commaToDot s) = commaToDot (pyStrip s) := by
  have hcomp : (fun x => pyIsSpace (cdChar x)) = pyIsSpace := funext pyIsSpace_cdChar
  show pyStripChars pyIsSpace (commaToDot s) = commaToDot (pyStripChars pyIsSpace s)
  rw [commaToDot_eq_map, commaToDot_eq_map]
  unfold pyStripChars
  show String.mk (((s.data.map cdChar).dropWhile pyIsSpace).reverse.dropWhile pyIsSpace).reverse =
    String.mk ((((s.data.dropWhile pyIsSpace).reverse.dropWhile pyIsSpace).reverse).map cdChar)
  rw [List.dropWhile_map, Function.comp_def, hcomp, ← List.map_reverse, List.dropWhile_map,
    Function.comp_def, hcomp, ← List.map_reverse]

theorem commaToDot_idem (s : String) : commaToDot (commaToDot s) = commaToDot s := by
  have h : cdChar ∘ cdChar = cdChar := funext cdChar_idem
  show String.mk ((s.data.map cdChar).map cdChar) = String.mk (s.data.map cdChar)
  rw [List.map_map, h]

/-! ### Claim C6 — timestamp parser -/

/-- C6: `parse_ts` maps a 3-segment token `h:m:s` to `h*3600 + m*60 + s`,
a 2-segment token to `m*60 + s`, and a 1-segment token to its float value,
treating comma and dot decimal separators identically; in particular
`parse("01:02:03.456") = 3723.456`, `parse("02:03.456") = 123.456`,
`parse("3.5") = 3.5`. -/
theorem parse_ts_spec :
    parse_ts "01:02:03.456" = some ((3723456 : ℚ) / 1000) ∧
    parse_ts "02:03.456" = some ((123456 : ℚ) / 1000) ∧
    parse_ts "3.5" = some ((35 : ℚ) / 10) ∧
    (∀ s : String, parse_ts (commaToDot s) = parse_ts s) ∧
    (∀ s a b c : String, pySplitChar ':' (commaToDot (pyStrip s)) = [a, b, c] →
      parse_ts s = do
        let h ← pyInt a
        let m ← pyInt b
        let sec ← pyFloat c
        pure ((h : ℚ) * 3600 + (m : ℚ) * 60 + sec)) ∧
    (∀ s a b : String, pySplitChar ':' (commaToDot (pyStrip s)) = [a, b] →
      parse_ts s = do
        let m ← pyInt a
        let sec ← pyFloat b
        pure ((m : ℚ) * 60 + sec)) ∧
    (∀ s a : String, pySplitChar ':' (commaToDot (pyStrip s)) = [a] →
      parse_ts s = pyFloat a) := by
  refine ⟨by decide, by decide, by decide, ?_, ?_, ?_, ?_⟩
  · intro s
    unfold parse_ts
    rw [strip_commaToDot, commaToDot_idem]
  · intro s a b c h
    unfold parse_ts
    dsimp only
    rw [h]
  · intro s a b h
    unfold parse_ts
    dsimp only
    rw [h]
  · intro s a h
    unfold parse_ts
    dsimp only
    rw [h]

/-- Witness for C6: the 3-segment law applied to the comma-decimal token
`"01:02:03,456"`. -/
theorem parse_ts_spec_witness :
    pySplitChar ':' (commaToDot (pyStrip "01:02:03,456")) = ["01", "02", "03.456"] ∧
    parse_ts "01:02:03,456" = (do
      let h ← pyInt "01"
      let m ← pyInt "02"
      let sec ← pyFloat "03.456"
      pure ((h : ℚ) * 3600 + (m : ℚ) * 60 + sec)) :=
  ⟨by decide, parse_ts_spec.2.2.2.2.1 "01:02:03,456" "01" "02" "03.456" (by decide)⟩

/-! ### Claim C5 — command argument parsing -/

/-- C5 (bug evidence): for the command `"/search foo bar 2"`, whose last
whitespace-delimited token `"2"` is all digits, the claimed result is query
`"foo bar"` with page `2`; the code's `split(maxsplit=2)` instead treats
`"bar 2"` as the page candidate and returns the whole remainder as the
query with page `1`. -/
theorem parse_cmd_with_page_trailing_page_bug :
    parse_cmd_with_page "/search foo bar 2" = some ("foo bar 2", 1) ∧
    parse_cmd_with_page "/search foo bar 2" ≠ some ("foo bar", 2) := by
  refine ⟨by decide, by decide⟩

/-! ### Claim C9 — translation fallback -/

/-- C9 (amended): when the translation service fails on a cue text whose
stripped form is non-empty, `translate_line` returns the original text
unchanged (and, being a total function, raises nothing). -/
theorem translate_line_fallback_amended (svc : String → Except String String)
    (text e : String) (h1 : pyStrip text ≠ "") (h2 : svc text = Except.error e) :
    translate_line svc text = text := by
  simp [translate_line, h1, h2]

/-- Witness for C9: a failing service on `"hola"` falls back to `"hola"`. -/
theorem translate_line_fallback_amended_witness :
    pyStrip "hola" ≠ "" ∧
    translate_line (fun _ => Except.error "err") "hola" = "hola" :=
  ⟨by decide, translate_line_fallback_amended (fun _ => Except.error "err") "hola" "err"
    (by decide) rfl⟩

/-- Counterexample to C9 as stated: the cue text `" "` is producible by
`parse_srt_vtt` (so it is a real cue text), yet with a failing service
`translate_line` returns `""`, not the original `" "` — the blank-text
early return bypasses the fallback. -/
theorem translate_line_blank_counterexample :
    translate_line (fun _ => Except.error "err") " " = "" ∧ (" " : String) ≠ "" ∧
    (parse_srt_vtt "00:00:01,000 --> 00:00:02,000\n<b> </b>").map Cue.text = [" "] := by
  refine ⟨by decide, by decide, by decide⟩

/-! ### Claim C4 — exact keys resolve to themselves -/

/-- C4 (amended): every key that the decorative-suffix/quote cleaning step
leaves unchanged resolves to itself, for all directory contents. -/
theorem resolve_exact_key_amended (keys : List String) (k : String)
    (hclean : _clean_material_name k = k) (hk : k ∈ keys) :
    _resolve_key keys k = some k := by
  unfold _resolve_key
  rw [hclean]
  simp [hk]

/-- Witness for C4: the key `"unit1/lesson1"` resolves to itself. -/
theorem resolve_exact_key_amended_witness :
    _clean_material_name "unit1/lesson1" = "unit1/lesson1" ∧
    ("unit1/lesson1" : String) ∈ ["unit1/lesson1", "unit1/lesson2"] ∧
    _resolve_key ["unit1/lesson1", "unit1/lesson2"] "unit1/lesson1" = some "unit1/lesson1" :=
  ⟨by decide, by decide,
    resolve_exact_key_amended ["unit1/lesson1", "unit1/lesson2"] "unit1/lesson1"
      (by decide) (by decide)⟩

/-- Counterexample to C4 as stated: the key `"a/b (3 líneas)"` (from files
named `"b (3 líneas).mp3/.txt"`) is present, yet resolving it returns
`none`, because the cleaning step strips the `"(3 líneas)"` decoration
before any lookup. -/
theorem resolve_exact_key_counterexample :
    ("a/b (3 líneas)" : String) ∈ ["a/b (3 líneas)"] ∧
    _resolve_key ["a/b (3 líneas)"] "a/b (3 líneas)" = none := by
  refine ⟨by decide, by decide⟩

/-! ### Claim C10 — natural-sort comparability -/

/-- C10 (bug evidence): the natural-sort key lists of the two legitimate
material keys `"a1/b"` and `"a/b"` reach position 1 with an integer token
on one side and a string token on the other, so Python's list comparison —
and hence `sorted(keys, key=natsort_key)` in `build_page` — raises
`TypeError` (modelled by `none`). -/
theorem natsort_key_incomparable_bug :
    natsort_key "a1/b" = [NTok.str "a", NTok.num 1, NTok.str "", NTok.str "b"] ∧
    natsort_key "a/b" = [NTok.str "a", NTok.str "b"] ∧
    pyListLt (natsort_key "a1/b") (natsort_key "a/b") = none := by
  refine ⟨by decide, by decide, by decide⟩

/-! ### Claim C7 — plain-text timing synthesis -/

theorem txtGo_mem_formula (rows : List String) :
    ∀ (t0 : ℚ) (c : Cue), c ∈ txtGo rows t0 →
      c.«end» - c.start = max MIN_LAST_DUR ((wordCount c.text : ℚ) / DEFAULT_WPS) := by
  induction rows with
  | nil => intro t0 c hc; simp [txtGo] at hc
  | cons r rs ih =>
    intro t0 c hc
    simp only [txtGo, List.mem_cons] at hc
    rcases hc with h | h
    · subst h
      simp
    · exact ih _ _ h

theorem txtGo_head_start (rows : List String) (t0 : ℚ) (c : Cue)
    (h : (txtGo rows t0).head? = some c) : c.start = t0 := by
  cases rows with
  | nil => simp [txtGo] at h
  | cons r rs =>
    simp only [txtGo, List.head?_cons, Option.some.injEq] at h
    rw [← h]

theorem txtGo_chain (rows : List String) :
    ∀ t0 : ℚ, List.Chain' (fun a b => a.«end» = b.start) (txtGo rows t0) := by
  induction rows with
  | nil => intro t0; simp [txtGo]
  | cons r rs ih =>
    intro t0
    rw [txtGo]
    rw [List.chain'_cons']
    refine ⟨?_, ih _⟩
    intro y hy
    have := txtGo_head_start rs _ y hy
    simp [this]

/-- C7: plain-text cues are laid out back-to-back from time 0, each cue's
duration is `max(MIN_LAST_DUR, wordCount(text)/DEFAULT_WPS)`, adjacent cues
satisfy `end = start`, and the last cue's duration is at least
`MIN_LAST_DUR = 1.2` seconds. -/
theorem parse_txt_layout (content : String) :
    (∀ c ∈ parse_txt content,
      c.«end» - c.start = max MIN_LAST_DUR ((wordCount c.text : ℚ) / DEFAULT_WPS)) ∧
    List.Chain' (fun a b => a.«end» = b.start) (parse_txt content) ∧
    (∀ c : Cue, (parse_txt content).head? = some c → c.start = 0) ∧
    (∀ c : Cue, (parse_txt content).getLast? = some c →
      MIN_LAST_DUR ≤ c.«end» - c.start) := by
  refine ⟨fun c hc => txtGo_mem_formula _ _ c hc, txtGo_chain _ _,
    fun c hc => txtGo_head_start _ _ c hc, ?_⟩
  intro c hc
  have hmem : c ∈ parse_txt content := by
    exact List.mem_of_mem_getLast? hc
  rw [txtGo_mem_formula _ _ c hmem]
  exact le_max_left _ _

/-- Witness for C7: the single cue of `"hola mundo"` has duration
`max(1.2, 2/2.5) = 1.2` and starts at 0. -/
theorem parse_txt_layout_witness :
    (⟨0, 6/5, "hola mundo"⟩ : Cue) ∈ parse_txt "hola mundo" ∧
    (⟨0, 6/5, "hola mundo"⟩ : Cue).«end» - (⟨0, 6/5, "hola mundo"⟩ : Cue).start =
      max MIN_LAST_DUR ((wordCount (⟨0, 6/5, "hola mundo"⟩ : Cue).text : ℚ) / DEFAULT_WPS) :=
  ⟨by decide, (parse_txt_layout "hola mundo").1 _ (by decide)⟩

/-! ### Claim C2 — cue invariants of the two parsers -/

theorem cueBlock_fst_mem (g1 g2 : String) (tail : List String) (c : Cue)
    (h : c ∈ (cueBlock g1 g2 tail).1) : c.start < c.«end» ∧ c.text ≠ "" := by
  simp only [cueBlock] at h
  split at h
  · rename_i hcond
    simp only [List.mem_singleton] at h
    subst h
    exact hcond
  · simp at h

theorem scanCuesF_mem :
    ∀ (fuel : ℕ) (ls : List String) (c : Cue), c ∈ scanCuesF fuel ls →
      c.start < c.«end» ∧ c.text ≠ "" := by
  intro fuel
  induction fuel with
  | zero => intro ls c hc; simp [scanCuesF] at hc
  | succ f ih =>
    intro ls c hc
    match ls with
    | [] => simp [scanCuesF] at hc
    | [l] =>
      rw [scanCuesF.eq_3] at hc
      rcases h1 : searchLine l with _ | ⟨g1, g2⟩ <;> rw [h1] at hc
      · simp at hc
      · simp only [List.mem_append] at hc
        rcases hc with hc | hc
        · exact cueBlock_fst_mem _ _ _ c hc
        · exact ih _ c hc
    | l :: l2 :: rest2 =>
      rw [scanCuesF.eq_4] at hc
      rcases h1 : searchLine l with _ | ⟨g1, g2⟩ <;> rw [h1] at hc
      · rcases h2 : searchLine l2 with _ | ⟨g3, g4⟩ <;> rw [h2] at hc
        · exact ih _ c hc
        · simp only [List.mem_append] at hc
          rcases hc with hc | hc
          · exact cueBlock_fst_mem _ _ _ c hc
          · exact ih _ c hc
      · simp only [List.mem_append] at hc
        rcases hc with hc | hc
        · exact cueBlock_fst_mem _ _ _ c hc
        · exact ih _ c hc

/-- C2 (amended): every cue produced by the timed-format parser
`parse_srt_vtt` satisfies `end > start` and has non-empty text (violators
are dropped); every cue produced by the plain-text parser `parse_txt`
satisfies `end > start`, but its text may be empty. -/
theorem parse_cues_invariants :
    (∀ content : String, ∀ c ∈ parse_srt_vtt content, c.start < c.«end» ∧ c.text ≠ "") ∧
    (∀ content : String, ∀ c ∈ parse_txt content, c.start < c.«end») := by
  constructor
  · intro content c hc
    unfold parse_srt_vtt parseSrtLines at hc
    rw [List.mem_insertionSort] at hc
    exact scanCuesF_mem _ _ c hc
  · intro content c hc
    have hf := txtGo_mem_formula _ _ c hc
    have hge : MIN_LAST_DUR ≤ c.«end» - c.start := by
      rw [hf]; exact le_max_left _ _
    have hpos : (0 : ℚ) < MIN_LAST_DUR := by norm_num [MIN_LAST_DUR]
    have : (0 : ℚ) < c.«end» - c.start := lt_of_lt_of_le hpos hge
    linarith

/-- Witness for C2: a well-formed SRT cue satisfies both invariants. -/
theorem parse_cues_invariants_witness :
    (⟨1, 2, "hola"⟩ : Cue) ∈ parse_srt_vtt "00:00:01,000 --> 00:00:02,000\nhola" ∧
    ((⟨1, 2, "hola"⟩ : Cue).start < (⟨1, 2, "hola"⟩ : Cue).«end» ∧
      (⟨1, 2, "hola"⟩ : Cue).text ≠ "") :=
  ⟨by decide, parse_cues_invariants.1 "00:00:01,000 --> 00:00:02,000\nhola" _ (by decide)⟩

/-- Counterexample to C2 as stated: the non-blank plain-text row `"<b>"`
becomes empty after tag stripping, yet `parse_txt` still emits a cue for
it — with empty text, not dropped. -/
theorem parse_txt_empty_text_counterexample :
    parse_txt "<b>" = [⟨0, 6/5, ""⟩] ∧
    ¬ (∀ c ∈ parse_txt "<b>", c.text ≠ "") := by
  refine ⟨by decide, by decide⟩

/-! ### Claim C3 — resolver tiebreak among multiple candidates -/

/-- The element of maximal length occurring last in list order (the
behaviour of `candidates.sort(key=len); candidates[-1]` under Python's
stable sort). -/
def lastMaxLen : List String → Option String
  | [] => none
  | x :: xs =>
    match lastMaxLen xs with
    | none => some x
    | some t => if x.length ≤ t.length then some t else some x

theorem lastMaxLen_eq_none : ∀ l : List String, lastMaxLen l = none → l = [] := by
  intro l h
  cases l with
  | nil => rfl
  | cons x xs =>
    rw [lastMaxLen] at h
    rcases ht : lastMaxLen xs with _ | t <;> rw [ht] at h <;> dsimp only at h
    · exact absurd h (by simp)
    · split at h <;> simp at h

theorem lastMaxLen_spec :
    ∀ (l : List String) (r : String), lastMaxLen l = some r →
      r ∈ l ∧ ∀ c ∈ l, c.length ≤ r.length := by
  intro l
  induction l with
  | nil => intro r h; simp [lastMaxLen] at h
  | cons x xs ih =>
    intro r h
    rw [lastMaxLen] at h
    rcases ht : lastMaxLen xs with _ | t <;> rw [ht] at h <;> dsimp only at h
    · have hnil := lastMaxLen_eq_none xs ht
      subst hnil
      simp only [Option.some.injEq] at h
      subst h
      refine ⟨List.mem_singleton_self _, ?_⟩
      intro c hc
      rw [List.mem_singleton] at hc
      rw [hc]
    · obtain ⟨htm, htb⟩ := ih t ht
      by_cases hcond : x.length ≤ t.length
      · rw [if_pos hcond] at h
        simp only [Option.some.injEq] at h
        subst h
        refine ⟨List.mem_cons_of_mem _ htm, ?_⟩
        intro c hc
        rcases List.mem_cons.mp hc with hcx | hcxs
        · rw [hcx]; exact hcond
        · exact htb c hcxs
      · rw [if_neg hcond] at h
        simp only [Option.some.injEq] at h
        subst h
        refine ⟨List.mem_cons_self _ _, ?_⟩
        intro c hc
        rcases List.mem_cons.mp hc with hcx | hcxs
        · rw [hcx]
        · have := htb c hcxs
          omega

theorem getLast?_orderedInsert (x : String) :
    ∀ l : List String, l.Sorted lenLe →
      (List.orderedInsert lenLe x l).getLast? =
        match l.getLast? with
        | none => some x
        | some t => if lenLe x t then some t else some x := by
  intro l
  induction l with
  | nil => intro _; rfl
  | cons y ys ih =>
    intro hs
    rw [List.orderedInsert]
    split
    · rename_i hxy
      rw [List.getLast?_cons_cons]
      rcases hys : (y :: ys).getLast? with _ | t
      · simp at hys
      · have htmem : t ∈ y :: ys := List.mem_of_mem_getLast? hys
        have hxt : lenLe x t := by
          rcases List.mem_cons.mp htmem with h | h
          · rw [← h] at hxy; exact hxy
          · have hyt : lenLe y t := (List.pairwise_cons.mp hs).1 t h
            exact Nat.le_trans hxy hyt
        dsimp only
        rw [if_pos hxt]
    · rename_i hxy
      rcases hoi : List.orderedInsert lenLe x ys with _ | ⟨z, zs⟩
      · have := List.orderedInsert_length lenLe ys x
        rw [hoi] at this
        simp at this
      · rw [List.getLast?_cons_cons, ← hoi, ih (List.Sorted.of_cons hs)]
        cases ys with
        | nil => simp [if_neg hxy]
        | cons w ws => rw [List.getLast?_cons_cons]

theorem getLast?_insertionSort_lenLe :
    ∀ l : List String, (List.insertionSort lenLe l).getLast? = lastMaxLen l := by
  intro l
  induction l with
  | nil => rfl
  | cons x xs ih =>
    rw [List.insertionSort,
      getLast?_orderedInsert x _ (List.sorted_insertionSort lenLe xs), ih]
    rw [lastMaxLen]
    rcases h : lastMaxLen xs with _ | t
    · rfl
    · show (if lenLe x t then some t else some x) = _
      unfold lenLe
      rfl

/-- C3 (amended): when the exact and case-insensitive steps fail and the
suffix/basename step collects at least one candidate, the resolver returns
the candidate of maximal length that occurs last in the directory's key
order (Python's stable `sort(key=len)` keeps the original order among
length ties) — in particular the result is always a longest candidate. -/
theorem resolve_key_tiebreak_amended (keys : List String) (name : String)
    (h1 : _clean_material_name name ∉ keys)
    (h2 : ∀ k ∈ keys, pyLower k ≠ pyLower (_clean_material_name name))
    (h3 : candidatesFor keys (pyLower (_clean_material_name name)) ≠ []) :
    _resolve_key keys name =
      lastMaxLen (candidatesFor keys (pyLower (_clean_material_name name))) ∧
    ∀ r : String, _resolve_key keys name = some r →
      r ∈ candidatesFor keys (pyLower (_clean_material_name name)) ∧
      ∀ c ∈ candidatesFor keys (pyLower (_clean_material_name name)),
        c.length ≤ r.length := by
  have hfind : keys.find? (fun k => pyLower k == pyLower (_clean_material_name name)) = none := by
    rw [List.find?_eq_none]
    intro k hk
    simpa using h2 k hk
  have hmain : _resolve_key keys name =
      lastMaxLen (candidatesFor keys (pyLower (_clean_material_name name))) := by
    unfold _resolve_key
    rw [if_neg h1]
    dsimp only
    rw [hfind]
    rcases hcs : candidatesFor keys (pyLower (_clean_material_name name)) with _ | ⟨c, cs⟩
    · exact absurd hcs h3
    · cases cs with
      | nil => rfl
      | cons c2 cs2 =>
        dsimp only
        rw [getLast?_insertionSort_lenLe]
  refine ⟨hmain, ?_⟩
  intro r hr
  rw [hmain] at hr
  exact lastMaxLen_spec _ r hr

/-- Witness for C3: for directory order `["bb/x", "aa/x"]` and input
`"x"`, both keys are candidates and the resolver returns the tiebreak
winner. -/
theorem resolve_key_tiebreak_amended_witness :
    (_clean_material_name "x" ∉ ["bb/x", "aa/x"]) ∧
    (candidatesFor ["bb/x", "aa/x"] (pyLower (_clean_material_name "x")) ≠ []) ∧
    _resolve_key ["bb/x", "aa/x"] "x" =
      lastMaxLen (candidatesFor ["bb/x", "aa/x"] (pyLower (_clean_material_name "x"))) :=
  ⟨by decide, by decide,
    (resolve_key_tiebreak_amended ["bb/x", "aa/x"] "x" (by decide) (by decide) (by decide)).1⟩

/-- Counterexample to C3 as stated: with directory order
`["bb/x", "aa/x"]` the two candidates tie at length 4; the last one in
sorted (lexicographic) order is `"bb/x"` (since `"aa/x" < "bb/x"`), but the
resolver returns `"aa/x"` — the last in *directory* order. -/
theorem resolve_key_tiebreak_counterexample :
    _resolve_key ["bb/x", "aa/x"] "x" = some "aa/x" ∧
    (candidatesFor ["bb/x", "aa/x"] (pyLower (_clean_material_name "x"))).map
      String.length = [4, 4] ∧
    listLtChars "aa/x".data "bb/x".data = true ∧
    some ("aa/x" : String) ≠ some "bb/x" := by
  refine ⟨by decide, by decide, by decide, by decide⟩

/-! ### Claim C8 — the WEBVTT format marker -/

theorem cueBlock_snd_le (g1 g2 : String) (tail : List String) :
    (cueBlock g1 g2 tail).2.length ≤ tail.length :=
  drop1_dropWhile_len_le _ tail

theorem scanCuesF_fuel :
    ∀ (f g : ℕ) (ls : List String), ls.length ≤ f → ls.length ≤ g →
      scanCuesF f ls = scanCuesF g ls := by
  intro f
  induction f with
  | zero =>
    intro g ls hf _
    have hnil : ls = [] := List.eq_nil_of_length_eq_zero (Nat.le_zero.mp hf)
    subst hnil
    cases g <;> simp [scanCuesF]
  | succ f ih =>
    intro g ls hf hg
    cases ls with
    | nil => cases g <;> simp [scanCuesF]
    | cons l rest =>
      cases g with
      | zero => simp at hg
      | succ g' =>
        simp only [List.length_cons, Nat.add_le_add_iff_right] at hf hg
        cases rest with
        | nil =>
          rw [scanCuesF.eq_3, scanCuesF.eq_3]
          rcases h1 : searchLine l with _ | ⟨g1, g2⟩
          · rfl
          · dsimp only
            have hlen : (cueBlock g1 g2 []).2.length ≤ 0 := cueBlock_snd_le g1 g2 []
            congr 1
            exact ih _ _ (by omega) (by omega)
        | cons l2 rest2 =>
          simp only [List.length_cons] at hf hg
          rw [scanCuesF.eq_4, scanCuesF.eq_4]
          rcases h1 : searchLine l with _ | ⟨g1, g2⟩
          · rcases h2 : searchLine l2 with _ | ⟨g3, g4⟩
            · dsimp only
              exact ih _ _ (by simp; omega) (by simp; omega)
            · dsimp only
              have hlen := cueBlock_snd_le g3 g4 rest2
              congr 1
              exact ih _ _ (by omega) (by omega)
          · dsimp only
            have hlen := cueBlock_snd_le g1 g2 (l2 :: rest2)
            simp only [List.length_cons] at hlen
            congr 1
            exact ih _ _ (by omega) (by omega)

theorem scanCues_nil : scanCues [] = [] := rfl

theorem scanCues_cons_none_nil (l : String) (h1 : searchLine l = none) :
    scanCues [l] = [] := by
  show scanCuesF 1 [l] = []
  rw [scanCuesF.eq_3, h1]

theorem scanCues_cons_none_none (l l2 : String) (rest2 : List String)
    (h1 : searchLine l = none) (h2 : searchLine l2 = none) :
    scanCues (l :: l2 :: rest2) = scanCues (l2 :: rest2) := by
  show scanCuesF (l :: l2 :: rest2).length _ = _
  rw [List.length_cons, scanCuesF.eq_4, h1, h2]
  rfl

theorem scanCues_cons_some (l : String) (rest : List String) (g1 g2 : String)
    (h1 : searchLine l = some (g1, g2)) :
    scanCues (l :: rest) =
      (cueBlock g1 g2 rest).1 ++ scanCues (cueBlock g1 g2 rest).2 := by
  show scanCuesF (l :: rest).length _ = _
  rw [List.length_cons]
  cases rest with
  | nil =>
    rw [scanCuesF.eq_3, h1]
    rfl
  | cons r rs =>
    rw [scanCuesF.eq_4, h1]
    dsimp only
    congr 1
    have hlen := cueBlock_snd_le g1 g2 (r :: rs)
    exact scanCuesF_fuel _ _ _ (by simp at hlen ⊢; omega) le_rfl

theorem scanCues_cons_none_some (l l2 : String) (rest2 : List String) (g1 g2 : String)
    (h1 : searchLine l = none) (h2 : searchLine l2 = some (g1, g2)) :
    scanCues (l :: l2 :: rest2) =
      (cueBlock g1 g2 rest2).1 ++ scanCues (cueBlock g1 g2 rest2).2 := by
  show scanCuesF (l :: l2 :: rest2).length _ = _
  rw [List.length_cons, scanCuesF.eq_4, h1, h2]
  dsimp only
  congr 1
  have hlen := cueBlock_snd_le g1 g2 rest2
  exact scanCuesF_fuel _ _ _ (by simp; omega) le_rfl

/-- A head line on which the timestamp search fails is transparent to the
scan: either the next line starts a cue (the head is skipped as an index
line) or scanning simply moves on. -/
theorem scanCues_cons_skip (w : String) (ls : List String) (hw : searchLine w = none) :
    scanCues (w :: ls) = scanCues ls := by
  cases ls with
  | nil => rw [scanCues_cons_none_nil w hw]; rfl
  | cons r rs =>
    rcases hr : searchLine r with _ | ⟨g1, g2⟩
    · rw [scanCues_cons_none_none w r rs hw hr]
    · rw [scanCues_cons_none_some w r rs g1 g2 hw hr, scanCues_cons_some r rs g1 g2 hr]

theorem searchLine_blank (b : String) (hb : pyStrip b = "") : searchLine b = none := by
  unfold searchLine
  rw [hb]
  rfl

theorem searchLine_webvtt (w : String) (hw : pyStrip w = "WEBVTT") : searchLine w = none := by
  unfold searchLine
  rw [hw]
  decide

theorem scan_append_blanks (bs : List String) :
    ∀ ls : List String, (∀ b ∈ bs, pyStrip b = "") → scanCues (bs ++ ls) = scanCues ls := by
  induction bs with
  | nil => intro ls _; rfl
  | cons b bs' ih =>
    intro ls hb
    rw [List.cons_append, scanCues_cons_skip b _ (searchLine_blank b (hb b (by simp)))]
    exact ih ls (fun x hx => hb x (by simp [hx]))

/-- C8: if the first non-empty line of the (normalised) input is the
`WEBVTT` format marker — any number of blank lines before it — the parse
result is exactly that of the line list with the marker removed: the
marker line is dropped and never contributes to any cue.  (When it is the
very first line the source drops it explicitly; otherwise it is skipped by
the scan.) -/
theorem webvtt_marker_dropped (bs : List String) (w : String) (rest : List String)
    (hb : ∀ b ∈ bs, pyStrip b = "") (hw : pyStrip w = "WEBVTT") :
    parseSrtLines (bs ++ w :: rest) = List.insertionSort cueLe (scanCues (bs ++ rest)) := by
  cases bs with
  | nil =>
    unfold parseSrtLines
    have hcond : pyStartsWith (pyUpper (pyStrip w)) "WEBVTT" = true := by
      rw [hw]; decide
    simp only [List.nil_append]
    rw [if_pos hcond]
  | cons b bs' =>
    unfold parseSrtLines
    have hbb : pyStrip b = "" := hb b (by simp)
    have hcond : pyStartsWith (pyUpper (pyStrip b)) "WEBVTT" = false := by
      rw [hbb]; decide
    simp only [List.cons_append]
    rw [if_neg (by simp [hcond])]
    congr 1
    have hb' : ∀ x ∈ bs', pyStrip x = "" := fun x hx => hb x (by simp [hx])
    rw [scanCues_cons_skip b _ (searchLine_blank b hbb),
      scanCues_cons_skip b _ (searchLine_blank b hbb),
      scan_append_blanks bs' _ hb', scan_append_blanks bs' _ hb']
    exact scanCues_cons_skip w rest (searchLine_webvtt w hw)

/-- Witness for C8: two blank lines, the marker, then a cue — the parse
equals that of the same lines without the marker. -/
theorem webvtt_marker_dropped_witness :
    (∀ b ∈ ["", "  "], pyStrip b = "") ∧ pyStrip "WEBVTT" = "WEBVTT" ∧
    parseSrtLines (["", "  "] ++ "WEBVTT" :: ["00:00:01,000 --> 00:00:02,000", "hola"]) =
      List.insertionSort cueLe
        (scanCues (["", "  "] ++ ["00:00:01,000 --> 00:00:02,000", "hola"])) :=
  ⟨by decide, by decide,
    webvtt_marker_dropped ["", "  "] "WEBVTT" ["00:00:01,000 --> 00:00:02,000", "hola"]
      (by decide) (by decide)⟩

/-! ### Claim C1 — pager size bound and whole-line emission -/

/-- Concatenation of the emitted pieces. -/
def sconcat (l : List String) : String := l.foldr (fun a b => a ++ b) ""

theorem sconcat_cons (s : String) (l : List String) : sconcat (s :: l) = s ++ sconcat l := rfl

/-- A string the `build_page` loop may append after the header: a numeric
decade bucket header, the `Otros` bucket header, or the key line of a
listed key. -/
def PagePiece (db : String → ℕ) (ks : List String) (p : String) : Prop :=
  (∃ n : ℤ, p = "\n[" ++ range_label_from_n n ++ "]\n") ∨ p = "\n[Otros]\n" ∨
    ∃ k ∈ ks, p = keyLine db k

theorem PagePiece_mono {db : String → ℕ} {ks ks' : List String} {p : String}
    (hsub : ∀ x ∈ ks, x ∈ ks') (h : PagePiece db ks p) : PagePiece db ks' p := by
  rcases h with h | h | ⟨k, hk, hp⟩
  · exact Or.inl h
  · exact Or.inr (Or.inl h)
  · exact Or.inr (Or.inr ⟨k, hsub k hk, hp⟩)

theorem bucketHeaderOf_piece {k : String} {lb lb2 : LB} {bh : String}
    (h : bucketHeaderOf k lb = some (bh, lb2)) :
    (∃ n : ℤ, bh = "\n[" ++ range_label_from_n n ++ "]\n") ∨ bh = "\n[Otros]\n" := by
  unfold bucketHeaderOf at h
  rcases hn : extract_last_number k with _ | n <;> rw [hn] at h <;> dsimp only at h
  · split at h
    · simp only [Option.some.injEq, Prod.mk.injEq] at h
      exact Or.inr h.1.symm
    · simp at h
  · split at h
    · simp only [Option.some.injEq, Prod.mk.injEq] at h
      exact Or.inl ⟨n, h.1.symm⟩
    · simp at h

theorem pyRstrip_length_le (s : String) : (pyRstrip s).length ≤ s.length := by
  show ((s.data.reverse.dropWhile pyIsSpace).reverse).length ≤ s.data.length
  rw [List.length_reverse]
  have h := (List.dropWhile_sublist (l := s.data.reverse) pyIsSpace).length_le
  rw [List.length_reverse] at h
  exact h

theorem pageLoop_invariant (db : String → ℕ) :
    ∀ (ks : List String) (out : String) (used : ℕ) (lb : LB),
      used = out.length → used ≤ MSG_BUDGET →
      (pageLoop db ks out used lb).2 = (pageLoop db ks out used lb).1.length ∧
      (pageLoop db ks out used lb).1.length ≤ MSG_BUDGET ∧
      ∃ pieces : List String, (∀ p ∈ pieces, PagePiece db ks p) ∧
        (pageLoop db ks out used lb).1 = out ++ sconcat pieces := by
  intro ks
  induction ks with
  | nil =>
    intro out used lb h1 h2
    rw [pageLoop]
    refine ⟨h1, h1 ▸ h2, [], by simp, ?_⟩
    show out = out ++ sconcat []
    rw [show sconcat [] = "" from rfl, String.append_empty]
  | cons k rest ih =>
    intro out used lb h1 h2
    rw [pageLoop]
    rcases hbh : bucketHeaderOf k lb with _ | ⟨bh, lb2⟩ <;> try dsimp only
    · by_cases hc : used + (keyLine db k).length > MSG_BUDGET
      · rw [if_pos hc]
        refine ⟨h1, by rw [← h1]; exact h2, [], by simp, ?_⟩
        show out = out ++ sconcat []
        rw [show sconcat [] = "" from rfl, String.append_empty]
      · rw [if_neg hc]
        have h1' : used + (keyLine db k).length = (out ++ keyLine db k).length := by
          rw [String.length_append, h1]
        have h2' : used + (keyLine db k).length ≤ MSG_BUDGET := by omega
        obtain ⟨e1, e2, pieces, hp, he⟩ := ih (out ++ keyLine db k) _ lb h1' h2'
        refine ⟨e1, e2, keyLine db k :: pieces, ?_, ?_⟩
        · intro p hp2
          rcases List.mem_cons.mp hp2 with hpk | hpp
          · exact Or.inr (Or.inr ⟨k, List.mem_cons_self _ _, hpk⟩)
          · exact PagePiece_mono (fun x hx => List.mem_cons_of_mem _ hx) (hp p hpp)
        · rw [he, sconcat_cons, ← String.append_assoc]
    · by_cases hcb : used + bh.length > MSG_BUDGET
      · rw [if_pos hcb]
        refine ⟨h1, by rw [← h1]; exact h2, [], by simp, ?_⟩
        show out = out ++ sconcat []
        rw [show sconcat [] = "" from rfl, String.append_empty]
      · rw [if_neg hcb]
        by_cases hcl : used + bh.length + (keyLine db k).length > MSG_BUDGET
        · rw [if_pos hcl]
          refine ⟨?_, ?_, [bh], ?_, ?_⟩
          · rw [String.length_append, h1]
          · rw [String.length_append, ← h1]; omega
          · intro p hp2
            rw [List.mem_singleton] at hp2
            subst hp2
            rcases bucketHeaderOf_piece hbh with h | h
            · exact Or.inl h
            · exact Or.inr (Or.inl h)
          · show out ++ bh = out ++ sconcat [bh]
            rw [sconcat_cons, show sconcat [] = "" from rfl, String.append_empty]
        · rw [if_neg hcl]
          have h1' : used + bh.length + (keyLine db k).length =
              (out ++ bh ++ keyLine db k).length := by
            rw [String.length_append, String.length_append, h1]
          have h2' : used + bh.length + (keyLine db k).length ≤ MSG_BUDGET := by omega
          obtain ⟨e1, e2, pieces, hp, he⟩ := ih (out ++ bh ++ keyLine db k) _ lb2 h1' h2'
          refine ⟨e1, e2, bh :: keyLine db k :: pieces, ?_, ?_⟩
          · intro p hp2
            rcases List.mem_cons.mp hp2 with hpb | hp3
            · subst hpb
              rcases bucketHeaderOf_piece hbh with h | h
              · exact Or.inl h
              · exact Or.inr (Or.inl h)
            · rcases List.mem_cons.mp hp3 with hpk | hpp
              · exact Or.inr (Or.inr ⟨k, List.mem_cons_self _ _, hpk⟩)
              · exact PagePiece_mono (fun x hx => List.mem_cons_of_mem _ hx) (hp p hpp)
          · rw [he, sconcat_cons, sconcat_cons, ← String.append_assoc, ← String.append_assoc]

theorem pageSlice_subset (keys : List String) (page : ℤ) :
    ∀ x ∈ pageSlice keys page, x ∈ keys := by
  intro x hx
  unfold pageSlice at hx
  dsimp only at hx
  have h1 := List.mem_of_mem_take hx
  have h2 := List.mem_of_mem_drop h1
  exact (List.mem_insertionSort natLe).mp h2

/-- C1 (amended): whenever the header material fits the budget — the title
plus the `" (vacío)"` suffix, and the page header plus the 30-character
empty-page notice — the text `build_page` returns has length at most
`MSG_BUDGET = 3900`, and everything after the header is a concatenation of
whole bucket-header and key lines (none ever split). -/
theorem build_page_budget_amended (db : String → ℕ) (keys : List String) (page : ℤ)
    (title : String)
    (h0 : title.length + 8 ≤ MSG_BUDGET)
    (h1 : (pageHeader keys.length page title).length + 30 ≤ MSG_BUDGET) :
    (build_page db keys page title).length ≤ MSG_BUDGET ∧
    (keys ≠ [] → ∃ pieces : List String, (∀ p ∈ pieces, PagePiece db keys p) ∧
      (build_page db keys page title =
        pyRstrip (pageHeader keys.length page title ++ sconcat pieces) ∨
       build_page db keys page title =
        pyRstrip (pageHeader keys.length page title ++ sconcat pieces ++
          "(sin elementos en esta página)"))) := by
  cases keys with
  | nil =>
    constructor
    · show (title ++ " (vacío)").length ≤ MSG_BUDGET
      rw [String.length_append]
      have h8 : (" (vacío)" : String).length = 8 := by decide
      omega
    · intro h; exact absurd rfl h
  | cons a ks =>
    have hlen : (List.insertionSort natLe (a :: ks)).length = (a :: ks).length :=
      List.length_insertionSort _ _
    have hHB : (pageHeader (a :: ks).length page title).length ≤ MSG_BUDGET := by omega
    obtain ⟨e1, e2, pieces, hp, he⟩ := pageLoop_invariant db (pageSlice (a :: ks) page)
      (pageHeader (a :: ks).length page title)
      (pageHeader (a :: ks).length page title).length LB.unset rfl hHB
    have hnotice : ("(sin elementos en esta página)" : String).length = 30 := by decide
    have hunf : build_page db (a :: ks) page title =
        pyRstrip (if (pageLoop db (pageSlice (a :: ks) page)
              (pageHeader (a :: ks).length page title)
              (pageHeader (a :: ks).length page title).length LB.unset).2 =
              (pageHeader (a :: ks).length page title).length
          then (pageLoop db (pageSlice (a :: ks) page)
              (pageHeader (a :: ks).length page title)
              (pageHeader (a :: ks).length page title).length LB.unset).1 ++
              "(sin elementos en esta página)"
          else (pageLoop db (pageSlice (a :: ks) page)
              (pageHeader (a :: ks).length page title)
              (pageHeader (a :: ks).length page title).length LB.unset).1) := by
      rw [build_page]
      rw [hlen]
    constructor
    · rw [hunf]
      by_cases hif : (pageLoop db (pageSlice (a :: ks) page)
          (pageHeader (a :: ks).length page title)
          (pageHeader (a :: ks).length page title).length LB.unset).2 =
          (pageHeader (a :: ks).length page title).length
      · rw [if_pos hif]
        refine le_trans (pyRstrip_length_le _) ?_
        rw [String.length_append, hnotice]
        have hl1 : (pageLoop db (pageSlice (a :: ks) page)
            (pageHeader (a :: ks).length page title)
            (pageHeader (a :: ks).length page title).length LB.unset).1.length =
            (pageHeader (a :: ks).length page title).length := by
          rw [← e1, hif]
        omega
      · rw [if_neg hif]
        exact le_trans (pyRstrip_length_le _) e2
    · intro _
      refine ⟨pieces, fun p hp2 => PagePiece_mono (pageSlice_subset _ _) (hp p hp2), ?_⟩
      rw [hunf]
      by_cases hif : (pageLoop db (pageSlice (a :: ks) page)
          (pageHeader (a :: ks).length page title)
          (pageHeader (a :: ks).length page title).length LB.unset).2 =
          (pageHeader (a :: ks).length page title).length
      · rw [if_pos hif, he]
        exact Or.inr rfl
      · rw [if_neg hif, he]
        exact Or.inl rfl

/-- Witness for C1: a one-key page under a short title stays within the
budget. -/
theorem build_page_budget_amended_witness :
    ("T" : String).length + 8 ≤ MSG_BUDGET ∧
    (pageHeader (["a"] : List String).length 1 "T").length + 30 ≤ MSG_BUDGET ∧
    (build_page (fun _ => 0) ["a"] 1 "T").length ≤ MSG_BUDGET :=
  ⟨by decide, by decide,
    (build_page_budget_amended (fun _ => 0) ["a"] 1 "T" (by decide) (by decide)).1⟩

/-- A 3893-character title. -/
def bigTitle : String := String.mk (List.replicate 3893 'x')

/-- Counterexample to C1 as stated: with an empty key list and a
3893-character title, `build_page` returns `title ++ " (vacío)"` of length
3901 > `MSG_BUDGET` — the header paths are not guarded by the budget. -/
theorem build_page_budget_counterexample :
    MSG_BUDGET < (build_page (fun _ => 0) [] 1 bigTitle).length := by
  have h : build_page (fun _ => 0) [] 1 bigTitle = bigTitle ++ " (vacío)" := rfl
  rw [h, String.length_append]
  have h1 : bigTitle.length = 3893 := by
    show (List.replicate 3893 'x').length = 3893
    rw [List.length_replicate]
  have h2 : (" (vacío)" : String).length = 8 := by decide
  rw [h1, h2]
  norm_num [MSG_BUDGET]
